import Mathlib

/-!
# Verification of the json2hcl conversion core

This file gives a shallow embedding of the conversion logic of the
`json2hcl` tool and proves properties of it.

The tool converts between JSON documents and HCL configuration documents
in both directions:

* the *reverse* direction (HCL → JSON) lives in `convert/convert.go`
  (`ConvertBody`, `convertBlock`, `ConvertExpression`, `convertTemplate`,
  `convertUnary`, ...);
* the *forward* direction (JSON → HCL) lives in `main.go`
  (`convertToNativeHCL`, `isHCLBlockArray`, `convertJSONBlockArray`,
  `extractBlockLabelsAndContent`, `shouldConvertObjectToBlocks`,
  `convertObjectToBlocks`, `setAttributeWithExpressionHandling`, ...).

Modelling conventions:

* Go `interface{}` JSON values and `cty.Value`s are both modelled by the
  inductive type `JVal` (JSON numbers are modelled as integers; no claim
  depends on non-integral numerics).
* Go maps (`map[string]interface{}`, `cty` object values) are modelled by
  association lists with unique keys.  Go map iteration order is
  unspecified; wherever the Go code iterates over a map, the model takes
  the entries as an explicitly ordered list, so an arbitrary iteration
  order is representable as an arbitrary permutation of that list.
* `hclwrite.Body` is modelled by `HWBody`, a list of emitted items.
  `SetAttributeValue` / `SetAttributeRaw` replace an existing attribute
  of the same name in place, else append (`setAttrIn`); `AppendNewBlock`
  appends.
* source ranges: `converter.rangeSource` returns the verbatim source text
  of an expression (including the trailing-`)` compensation).  The model
  attaches the resulting source string directly to each expression
  constructor on which the Go code can call `wrapExpr`.
-/

/-- Generic JSON-side value (also plays the role of `cty.Value` for the
literal values appearing in expressions).  Mirrors the value model shared
by both conversion directions. -/
inductive JVal where
  | null
  | bool (b : Bool)
  | num (n : Int)
  | str (s : String)
  | arr (elems : List JVal)
  | obj (fields : List (String × JVal))
deriving Repr

/-- A JSON object, i.e. the `jsonObj = map[string]interface{}` of
`convert.go`, as an association list with unique keys. -/
abbrev JObj := List (String × JVal)

/-- Lookup in a JSON object (Go `out[key]` read). -/
def jsonGet (o : JObj) (k : String) : Option JVal :=
  match o with
  | [] => none
  | (k', v) :: rest => if k' = k then some v else jsonGet rest k

/-- Insertion into a JSON object (Go `out[key] = v`): replaces the value
of an existing key in place, else appends. -/
def jsonSet (o : JObj) (k : String) (v : JVal) : JObj :=
  match o with
  | [] => [(k, v)]
  | (k', v') :: rest => if k' = k then (k, v) :: rest else (k', v') :: jsonSet rest k v

/-! ## String helpers shared by both directions (`main.go`)

The Go code manipulates strings byte-wise; all strings relevant to the
claims are ASCII, so the model works on the character list `String.data`. -/

/-- One character of Go's `isSimpleReference` character class:
letters, digits, `.`, `_`, `-` (`main.go`, `isSimpleReference`). -/
def isSimpleRefChar (c : Char) : Bool :=
  (('a' ≤ c ∧ c ≤ 'z') ∨ ('A' ≤ c ∧ c ≤ 'Z') ∨ ('0' ≤ c ∧ c ≤ '9') ∨
    c = '.' ∨ c = '_' ∨ c = '-' : Prop)

/-- `isSimpleReference` (`main.go`): non-empty and every rune in the
simple-reference character class. -/
def isSimpleReference (expr : String) : Bool :=
  expr.data.all isSimpleRefChar && expr.data.length > 0

/-- `isUnquotedType` (`main.go`): the fixed primitive type keywords that
are emitted unquoted when they appear as the value of a `type` attribute. -/
def isUnquotedType (str : String) : Bool :=
  str ∈ (["string", "number", "bool", "list", "set", "map", "object", "tuple", "any"] : List String)

/-- `unwrapInterpolationExpression` (`main.go`): for a string of the form
`${inner}` with `len > 3` whose inner text is a simple reference, return
the inner text; otherwise return `""` (the Go sentinel for "no unwrap"). -/
def unwrapInterpolationExpression (str : String) : String :=
  match str.data with
  | '$' :: '\x7b' :: rest =>
    if str.data.length > 3 ∧ rest.getLast? = some '\x7d' then
      let inner : String := ⟨rest.dropLast⟩
      if isSimpleReference inner then inner else ""
    else ""
  | _ => ""

/-- Character-level scan for the substring `${`
(Go `strings.Contains(strVal, "${")`). -/
def containsInterpolation : List Char → Bool
  | '$' :: '\x7b' :: _ => true
  | _ :: rest => containsInterpolation rest
  | [] => false

/-- `escapeLiteral` (`convert.go`): escape literal `${` to `$${` and
`%{` to `%%{`.  Go performs two sequential global replaces; since the
two patterns start with different characters and neither replacement
creates a new occurrence of either pattern to the left of the scan
point, a single left-to-right scan is equivalent. -/
def escapeChars : List Char → List Char
  | '$' :: '\x7b' :: rest => '$' :: '$' :: '\x7b' :: escapeChars rest
  | '%' :: '\x7b' :: rest => '%' :: '%' :: '\x7b' :: escapeChars rest
  | c :: rest => c :: escapeChars rest
  | [] => []

/-- `escapeLiteral` (`convert.go`) on strings. -/
def escapeLiteral (lit : String) : String := ⟨escapeChars lit.data⟩

/-- `wrapExpr` (`convert.go`): `"${" + rangeSource(expr) + "}"`. -/
def wrapSrc (src : String) : String := "$\x7b" ++ src ++ "\x7d"

/-! ## Reverse direction: expression serializer (`convert.go`) -/

/-- The two HCL unary operators (`hclsyntax.OpLogicalNot`, `OpNegate`). -/
inductive UnOp where
  | logicalNot
  | negate
deriving Repr, DecidableEq

/-- Evaluation of a unary operator applied to a literal `cty` value, as
performed by `hclsyntax.UnaryOpExpr.Value(nil)` inside `convertUnary`:
the operand is converted to the operator's parameter type (bool for `!`,
number for `-`; `cty` also converts the strings `"true"`/`"false"` to
bool and numeric strings to number), and incompatible operands produce
an error diagnostic (`none` here).  Numeric strings are modelled with
integer parsing; no claim exercises that corner. -/
def unaryEval : UnOp → JVal → Option JVal
  | .logicalNot, .bool b => some (.bool !b)
  | .logicalNot, .str "true" => some (.bool false)
  | .logicalNot, .str "false" => some (.bool true)
  | .negate, .num n => some (.num (-n))
  | .negate, .str s => (s.toInt?).map fun n => .num (-n)
  | _, _ => none

/-- `ctyconvert.Convert(v, cty.String)` as used in `convertStringPart` and
for the single-literal template value: scalars convert to their string
form, `null` and composite values do not convert. -/
def ctyToString : JVal → Option String
  | .str s => some s
  | .bool b => some (if b then "true" else "false")
  | .num n => some (toString n)
  | _ => none

/-- One step of an `hcl.Traversal` after the root (`hcl.TraverseAttr` /
`hcl.TraverseIndex`).  `ConvertExpression` only inspects whether any
such steps exist. -/
inductive Traverser where
  | attr (name : String)
  | index (key : JVal)
deriving Repr

/-- The `hclsyntax.Expression` node kinds dispatched on by
`ConvertExpression` / `convertStringPart` / `convertKey` (`convert.go`).
Constructors on which the Go code can call `wrapExpr` carry the verbatim
source text `src` that `converter.rangeSource` would return for them.
`other` stands for every node kind not matched by any `case` arm
(binary operations, function calls, for/conditional expressions outside
templates reach their own constructors below, etc.). -/
inductive Expr where
  /-- `hclsyntax.LiteralValueExpr` -/
  | literal (v : JVal)
  /-- `hclsyntax.ScopeTraversalExpr`: root name, steps after the root,
  verbatim source. A parsed traversal always starts with
  `hcl.TraverseRoot`. -/
  | scopeTraversal (root : String) (rest : List Traverser) (src : String)
  /-- `hclsyntax.UnaryOpExpr` -/
  | unaryOp (op : UnOp) (operand : Expr) (src : String)
  /-- `hclsyntax.TemplateExpr` -/
  | template (parts : List Expr)
  /-- `hclsyntax.TemplateWrapExpr` -/
  | templateWrap (wrapped : Expr)
  /-- `hclsyntax.TupleConsExpr` -/
  | tupleCons (exprs : List Expr) (src : String)
  /-- `hclsyntax.ObjectConsExpr` (key/value expression pairs) -/
  | objectCons (items : List (Expr × Expr)) (src : String)
  /-- `hclsyntax.ConditionalExpr`; `condSrc` is `rangeSource` of the
  condition sub-expression (only ever used for template rendering). -/
  | conditional (condSrc : String) (trueResult falseResult : Expr) (src : String)
  /-- `hclsyntax.TemplateJoinExpr` whose `Tuple` is the
  `hclsyntax.ForExpr` with key/value variables, collection source text
  and value sub-expression (the only shape the parser produces). -/
  | templateJoin (keyVar valVar collSrc : String) (valExpr : Expr) (src : String)
  /-- `hclsyntax.ObjectConsKeyExpr` -/
  | objectConsKey (wrapped : Expr) (src : String)
  /-- any node kind not enumerated in the `switch` -/
  | other (src : String)
deriving Repr

mutual

/-- `converter.ConvertExpression` (`convert.go`) with the `Simplify`
option off, which is how `main.go` invokes the converter
(`convert.Options{}`). -/
def ConvertExpression : Expr → Except String JVal
  | .literal v => .ok v
  | .scopeTraversal root rest src =>
    if rest.isEmpty then .ok (.str root)
    else .ok (.str (wrapSrc src))
  | .unaryOp op operand src =>
    match operand with
    | .literal lit =>
      match unaryEval op lit with
      | some r => .ok r
      | none => .error "unary operation on incompatible literal operand"
    | _ => .ok (.str (wrapSrc src))
  | .template parts =>
    match convertTemplate parts with
    | .ok s => .ok (.str s)
    | .error e => .error e
  | .templateWrap w => ConvertExpression w
  | .tupleCons exprs _ =>
    match convertExprList exprs with
    | .ok vs => .ok (.arr vs)
    | .error e => .error e
  | .objectCons items _ =>
    match convertObjItems items [] with
    | .ok o => .ok (.obj o)
    | .error e => .error e
  | .conditional _ _ _ src => .ok (.str (wrapSrc src))
  | .templateJoin _ _ _ _ src => .ok (.str (wrapSrc src))
  | .objectConsKey _ src => .ok (.str (wrapSrc src))
  | .other src => .ok (.str (wrapSrc src))
termination_by e => (sizeOf e, 0)

/-- The element loop of the `TupleConsExpr` arm of `ConvertExpression`. -/
def convertExprList : List Expr → Except String (List JVal)
  | [] => .ok []
  | e :: rest =>
    match ConvertExpression e with
    | .error err => .error err
    | .ok v =>
      match convertExprList rest with
      | .error err => .error err
      | .ok vs => .ok (v :: vs)
termination_by l => (sizeOf l, 0)

/-- The item loop of the `ObjectConsExpr` arm of `ConvertExpression`:
`m[key] = value` inserts into the result map (later duplicate keys
overwrite earlier ones). -/
def convertObjItems : List (Expr × Expr) → JObj → Except String JObj
  | [], acc => .ok acc
  | (k, v) :: rest, acc =>
    match convertKey k with
    | .error err => .error err
    | .ok key =>
      match ConvertExpression v with
      | .error err => .error err
      | .ok value => convertObjItems rest (jsonSet acc key value)
termination_by l _ => (sizeOf l, 0)

/-- `converter.convertTemplate` (`convert.go`): a single-literal template
(`IsStringLiteral`) takes its value converted to string and escaped;
otherwise the parts are converted and concatenated. -/
def convertTemplate : List Expr → Except String String
  | [.literal v] =>
    match ctyToString v with
    | some s => .ok (escapeLiteral s)
    | none => .error "template literal not convertible to string"
  | parts => convertParts parts
termination_by parts => (sizeOf parts, 1)

/-- The part loop of `convertTemplate`. -/
def convertParts : List Expr → Except String String
  | [] => .ok ""
  | p :: rest =>
    match convertStringPart p with
    | .error err => .error err
    | .ok s =>
      match convertParts rest with
      | .error err => .error err
      | .ok srest => .ok (s ++ srest)
termination_by parts => (sizeOf parts, 0)

/-- `converter.convertStringPart` (`convert.go`). -/
def convertStringPart : Expr → Except String String
  | .literal .null => .ok "null"
  | .literal v =>
    match ctyToString v with
    | some s => .ok (escapeLiteral s)
    | none => .error "literal part not convertible to string"
  | .template parts => convertTemplate parts
  | .templateWrap w => convertStringPart w
  | .conditional condSrc t f _ => convertTemplateConditional condSrc t f
  | .templateJoin keyVar valVar collSrc valExpr _ =>
    convertTemplateFor keyVar valVar collSrc valExpr
  | .scopeTraversal _ _ src => .ok (wrapSrc src)
  | .unaryOp _ _ src => .ok (wrapSrc src)
  | .tupleCons _ src => .ok (wrapSrc src)
  | .objectCons _ src => .ok (wrapSrc src)
  | .objectConsKey _ src => .ok (wrapSrc src)
  | .other src => .ok (wrapSrc src)
termination_by e => (sizeOf e, 0)

/-- `converter.convertTemplateConditional` (`convert.go`).  Note the Go
code returns `"", nil` when converting the true branch fails (the error
is dropped), and never checks the error of the false branch (whose
result is `""` on failure). -/
def convertTemplateConditional (condSrc : String) (t f : Expr) : Except String String :=
  match convertStringPart t with
  | .error _ => .ok ""
  | .ok trueResult =>
    let falseResult := match convertStringPart f with
      | .ok s => s
      | .error _ => ""
    .ok ("%\x7bif " ++ condSrc ++ "\x7d" ++ trueResult ++
      (if falseResult.length > 0 then "%\x7belse\x7d" ++ falseResult else "") ++
      "%\x7bendif\x7d")
termination_by (sizeOf t + sizeOf f, 1)
decreasing_by
all_goals apply Prod.Lex.left
all_goals
  have ht : 0 < sizeOf t := by cases t <;> simp_arith
  have hf : 0 < sizeOf f := by cases f <;> simp_arith
  omega

/-- `converter.convertTemplateFor` (`convert.go`). -/
def convertTemplateFor (keyVar valVar collSrc : String) (valExpr : Expr) :
    Except String String :=
  match convertStringPart valExpr with
  | .error err => .error err
  | .ok templ =>
    .ok ("%\x7bfor " ++ (if keyVar.length > 0 then keyVar ++ ", " else "") ++
      valVar ++ " in " ++ collSrc ++ "\x7d" ++ templ ++ "%\x7bendfor\x7d")
termination_by (sizeOf valExpr, 1)

/-- `converter.convertKey` (`convert.go`): an `ObjectConsKeyExpr` wrapping
a traversal uses the traversal's verbatim source text; all other keys go
through `convertStringPart`. -/
def convertKey : Expr → Except String String
  | .objectConsKey w _ =>
    match w with
    | .scopeTraversal _ _ src => .ok src
    | _ => convertStringPart w
  | e => convertStringPart e

end

/-! ## A structural predicate characterising the failure-free fragment of
the expression serializer -/

mutual

/-- Structural condition under which `ConvertExpression` cannot fail:
every unary operator applied to a literal operand evaluates, and every
literal that must be stringified inside a template converts to a string.
Conditional template parts impose no condition because
`convertTemplateConditional` drops the errors of its branches. -/
def serializableB : Expr → Bool
  | .literal _ => true
  | .scopeTraversal _ _ _ => true
  | .unaryOp op operand _ =>
    match operand with
    | .literal lit => (unaryEval op lit).isSome
    | _ => true
  | .template parts => templateOkB parts
  | .templateWrap w => serializableB w
  | .tupleCons exprs _ => exprListOkB exprs
  | .objectCons items _ => objItemsOkB items
  | .conditional _ _ _ _ => true
  | .templateJoin _ _ _ valExpr _ => stringPartOkB valExpr
  | .objectConsKey _ _ => true
  | .other _ => true

/-- Failure-freedom of `convertTemplate`. -/
def templateOkB : List Expr → Bool
  | [.literal v] => (ctyToString v).isSome
  | parts => partsOkB parts

/-- Failure-freedom of `convertParts`. -/
def partsOkB : List Expr → Bool
  | [] => true
  | p :: rest => stringPartOkB p && partsOkB rest

/-- Failure-freedom of `convertStringPart`. -/
def stringPartOkB : Expr → Bool
  | .literal .null => true
  | .literal v => (ctyToString v).isSome
  | .template parts => templateOkB parts
  | .templateWrap w => stringPartOkB w
  | .conditional _ _ _ _ => true
  | .templateJoin _ _ _ valExpr _ => stringPartOkB valExpr
  | _ => true

/-- Failure-freedom of `convertExprList`. -/
def exprListOkB : List Expr → Bool
  | [] => true
  | e :: rest => serializableB e && exprListOkB rest

/-- Failure-freedom of `convertObjItems`. -/
def objItemsOkB : List (Expr × Expr) → Bool
  | [] => true
  | (k, v) :: rest => keyOkB k && serializableB v && objItemsOkB rest

/-- Failure-freedom of `convertKey`. -/
def keyOkB : Expr → Bool
  | .objectConsKey w _ =>
    match w with
    | .scopeTraversal _ _ _ => true
    | _ => stringPartOkB w
  | e => stringPartOkB e

end

/-! ## Reverse direction: body serializer (`convert.go`) -/

mutual

/-- `hclsyntax.Body`: attributes (name/expression pairs, in an arbitrary
map-iteration order) and blocks (in source order). -/
inductive SynBody where
  | mk (attrs : List (String × Expr)) (blocks : List SynBlock)

/-- `hclsyntax.Block`: type, labels, body. -/
inductive SynBlock where
  | mk (btype : String) (labels : List String) (body : SynBody)

end

/-- The attribute loop of `converter.ConvertBody`:
`out[key] = ConvertExpression(attr.Expr)`, failing fast on the first
expression error. -/
def convertAttrs : List (String × Expr) → JObj → Except String JObj
  | [], out => .ok out
  | (k, e) :: rest, out =>
    match ConvertExpression e with
    | .error err => .error err
    | .ok v => convertAttrs rest (jsonSet out k v)

mutual

/-- `converter.ConvertBody` (`convert.go`): first merge every block into
the output object, then serialize the attributes. -/
def ConvertBody : SynBody → Except String JObj
  | .mk attrs blocks =>
    match convertBlocks blocks [] with
    | .error err => .error err
    | .ok out => convertAttrs attrs out

/-- The block loop of `ConvertBody`. -/
def convertBlocks : List SynBlock → JObj → Except String JObj
  | [], out => .ok out
  | b :: rest, out =>
    match convertBlock b out with
    | .error err => .error err
    | .ok out' => convertBlocks rest out'

/-- `converter.convertBlock` (`convert.go`): walk the label chain,
descending through (or creating) nested single-key objects, then insert
the serialized block body at the final key, wrapping it in a list /
appending to an existing list. -/
def convertBlock : SynBlock → JObj → Except String JObj
  | .mk btype labels body, out => blockWalk btype labels body out

/-- The label walk plus final insertion of `convertBlock`.  The walk over
the labels happens before the block body is serialized (so a walk error
preempts a body error), and the final existing-key check happens after
(matching the Go statement order). -/
def blockWalk (key : String) (labels : List String) (body : SynBody) (out : JObj) :
    Except String JObj :=
  match labels with
  | [] =>
    match ConvertBody body with
    | .error err => .error err
    | .ok value =>
      match jsonGet out key with
      | some (.arr cur) => .ok (jsonSet out key (.arr (cur ++ [.obj value])))
      | some _ =>
        .error ("invalid HCL detected for " ++ key ++
          " block, cannot have blocks with and without labels")
      | none => .ok (jsonSet out key (.arr [.obj value]))
  | l :: ls =>
    match jsonGet out key with
    | some (.obj inner) =>
      match blockWalk l ls body inner with
      | .error err => .error err
      | .ok inner' => .ok (jsonSet out key (.obj inner'))
    | some _ => .error ("Unable to convert Block to JSON: " ++ key)
    | none =>
      match blockWalk l ls body [] with
      | .error err => .error err
      | .ok inner' => .ok (jsonSet out key (.obj inner'))

end

/-! ## Forward direction: JSON → native HCL (`main.go`) -/

/-- The value of an emitted `hclwrite` attribute, as produced by
`setAttributeWithExpressionHandling`:

* `rawIdent s` — `SetAttributeRaw` with a single `TokenIdent` token `s`
  (an unquoted identifier / bare expression);
* `rawQuoted s` — `SetAttributeRaw` with a single `TokenQuotedLit` token
  whose bytes are `"` + `s` + `"` (the string body inserted verbatim,
  bypassing normal escaping);
* `value v` — `SetAttributeValue` with the `cty` value `v` (standard
  rendering, which escapes `${` / `%{` sequences in string literals). -/
inductive HWAttrVal where
  | rawIdent (s : String)
  | rawQuoted (s : String)
  | value (v : JVal)
deriving Repr

/-- An item of an `hclwrite.Body`: an attribute or a nested block. -/
inductive HWItem where
  | attr (name : String) (val : HWAttrVal)
  | block (btype : String) (labels : List String) (body : List HWItem)
deriving Repr

/-- An `hclwrite.Body`: the emitted items in order. -/
abbrev HWBody := List HWItem

/-- `setAttributeWithExpressionHandling` (`main.go`), value part: decide
which token form the attribute value takes. -/
def setAttrVal (name : String) (val : JVal) : HWAttrVal :=
  match val with
  | .str strVal =>
    if name = "type" ∧ isUnquotedType strVal then .rawIdent strVal
    else
      let expr := unwrapInterpolationExpression strVal
      if expr ≠ "" then .rawIdent expr
      else if containsInterpolation strVal.data then .rawQuoted strVal
      else .value (.str strVal)
  | _ => .value val

/-- `hclwrite.Body.SetAttribute{Value,Raw}`: replace the first attribute
with the given name in place, else append. -/
def setAttrIn : HWBody → String → HWAttrVal → HWBody
  | [], n, v => [.attr n v]
  | .attr n' v' :: rest, n, v =>
    if n' = n then .attr n v :: rest else .attr n' v' :: setAttrIn rest n v
  | item :: rest, n, v => item :: setAttrIn rest n v

/-- `setAttributeWithExpressionHandling` (`main.go`) applied to a body. -/
def setAttrB (body : HWBody) (name : String) (val : JVal) : HWBody :=
  setAttrIn body name (setAttrVal name val)

/-- Is an item an attribute with the given name? -/
def isAttrNamed (name : String) : HWItem → Bool
  | .attr n _ => n = name
  | .block _ _ _ => false

/-- The well-known HCL block-type names of `isHCLBlockArray`
(`main.go`, `hclBlockTypes` map). -/
def hclBlockTypes : List String :=
  ["resource", "data", "provider", "output", "locals", "module", "terraform",
   "attribute", "global_secondary_index", "local_secondary_index",
   "backup_policy", "point_in_time_recovery", "server_side_encryption",
   "stream_specification", "ttl"]

/-- `isHCLBlockArray` (`main.go`): should the array value of key `name`
be treated as HCL blocks?  `targetFileType` is the package-level global
of the same name (`"terraform"` or `"tfvars"`). -/
def isHCLBlockArray (targetFileType : String) (name : String) (val : JVal) : Bool :=
  match val with
  | .arr elems =>
    match elems with
    | [] => false
    | first :: _ =>
      if name = "variable" then targetFileType = "terraform"
      else if name ∈ hclBlockTypes then true
      else
        match first with
        | .obj fm =>
          match fm with
          | [(_, v)] =>
            match v with
            | .arr [velem] =>
              match velem with
              | .obj vfm => vfm.length = 1
              | _ => false
            | _ => false
          | _ => false
        | _ => false
  | _ => false

/-- `extractBlockLabelsAndContent` (`main.go`) on the map of one block
instance.  Returns the extracted labels and the content map; the Go
function's `error` result is always `nil`, so no error component is
modelled. -/
def extractBlockLabelsAndContent (m : JObj) : List String × JObj :=
  match m with
  | [(key, value)] =>
    match value with
    | .arr [first] =>
      match first with
      | .obj fm =>
        match fm with
        | [(innerKey, innerValue)] =>
          match innerValue with
          | .arr [innerFirst] =>
            match innerFirst with
            | .obj cm => ([key, innerKey], cm)
            | _ => ([key], [(innerKey, innerValue)])
          | _ => ([key], [(innerKey, innerValue)])
        | _ => ([key], fm)
      | _ => ([], [])
    | .arr _ => ([], [(key, value)])
    | _ => ([], [(key, value)])
  | _ => ([], m)

mutual

/-- `convertJSONBlockArray` (`main.go`).  The Go function mutates the
passed `hclwrite` body and returns an error; the model returns the
(possibly partially extended) body together with the optional error, so
that blocks appended before a failing instance are preserved exactly as
in Go. -/
def convertJSONBlockArray (ft blockType : String) (val : JVal) (body : HWBody) :
    HWBody × Option String :=
  match val with
  | .arr insts => goInstances ft blockType insts body
  | _ => (body, some "not a block array")
termination_by (sizeOf val, 1)
decreasing_by
all_goals apply Prod.Lex.left
all_goals simp_arith

/-- The instance loop of `convertJSONBlockArray`. -/
def goInstances (ft blockType : String) (insts : List JVal) (body : HWBody) :
    HWBody × Option String :=
  match insts with
  | [] => (body, none)
  | inst :: rest =>
    match inst with
    | .obj m =>
      let lc := extractBlockLabelsAndContent m
      let inner := fillBlockBody ft lc.2 []
      goInstances ft blockType rest (body ++ [.block blockType lc.1 inner])
    | _ => (body, some "block instance is not an object")
termination_by (sizeOf insts, 1)
decreasing_by
all_goals apply Prod.Lex.left
all_goals first
  | (simp_arith; done)
  | (have hle : ∀ mm : JObj, sizeOf (extractBlockLabelsAndContent mm).2 ≤ sizeOf mm := by
       intro mm
       unfold extractBlockLabelsAndContent
       split
       all_goals try split
       all_goals try split
       all_goals try split
       all_goals try split
       all_goals try split
       all_goals simp_arith
     refine lt_of_le_of_lt (hle _) ?_
     simp_arith
     omega)

/-- The attribute loop over one block's content inside
`convertJSONBlockArray` (`main.go`): list/tuple values are first tried
as nested block arrays (without consulting the classifier), falling back
to a plain attribute on error. -/
def fillBlockBody (ft : String) (content : JObj) (body : HWBody) : HWBody :=
  match content with
  | [] => body
  | (attrName, attrVal) :: rest =>
    match attrVal with
    | .arr elems =>
      match convertJSONBlockArray ft attrName (.arr elems) body with
      | (body', none) => fillBlockBody ft rest body'
      | (body', some _) => fillBlockBody ft rest (setAttrB body' attrName (.arr elems))
    | _ => fillBlockBody ft rest (setAttrB body attrName attrVal)
termination_by (sizeOf content, 0)
decreasing_by
all_goals apply Prod.Lex.left
all_goals simp_arith

end

/-- The object-value block-type names of `shouldConvertObjectToBlocks`
(`main.go`, `blockTypes` map).  Note this set differs from
`hclBlockTypes`: it adds `variable` and omits the nested block-type
names (`attribute`, the index/policy/recovery/encryption/stream/ttl
names). -/
def objectBlockTypes : List String :=
  ["variable", "output", "locals", "provider", "resource", "data",
   "module", "terraform"]

/-- `shouldConvertObjectToBlocks` (`main.go`): an object value is turned
into blocks only for `.tf` output (`targetFileType == "terraform"`) and
only for the names in `objectBlockTypes`. -/
def shouldConvertObjectToBlocks (targetFileType : String) (name : String) (val : JVal) : Bool :=
  match val with
  | .obj _ =>
    if targetFileType = "terraform" then name ∈ objectBlockTypes
    else false
  | _ => false

/-- Is a value a `cty` list/tuple? (`IsListType() || IsTupleType()`). -/
def isArrVal : JVal → Bool
  | .arr _ => true
  | _ => false

/-- The block-content attribute loop of `convertObjectToBlocksRecursive`
(`main.go`, lines building the block body in the single-element-array
case): list values are checked with `isHCLBlockArray` and converted as
nested block arrays with a plain-attribute fallback. -/
def objBlockBodyFill (ft : String) (fields : JObj) (body : HWBody) : HWBody :=
  match fields with
  | [] => body
  | (attrName, attrVal) :: rest =>
    match attrVal with
    | .arr elems =>
      if isHCLBlockArray ft attrName (.arr elems) then
        match convertJSONBlockArray ft attrName (.arr elems) body with
        | (body', none) => objBlockBodyFill ft rest body'
        | (body', some _) => objBlockBodyFill ft rest (setAttrB body' attrName (.arr elems))
      else objBlockBodyFill ft rest (setAttrB body attrName (.arr elems))
    | _ => objBlockBodyFill ft rest (setAttrB body attrName attrVal)

mutual

/-- `convertObjectToBlocksRecursive` (`main.go`).  As with
`convertJSONBlockArray`, the Go function mutates the body and returns an
error; the model returns the partially extended body with the optional
error. -/
def convertObjectToBlocksRecursive (ft blockType : String) (labels : List String)
    (val : JVal) (body : HWBody) : HWBody × Option String :=
  match val with
  | .arr elems =>
    match elems with
    | [first] =>
      match first with
      | .obj fm => (body ++ [.block blockType labels (objBlockBodyFill ft fm [])], none)
      | _ => (body, some "expected object in array for block")
    | _ => (body, some "expected single element array for block")
  | .obj valueMap =>
    if valueMap.all (fun p => isArrVal p.2) ∧ valueMap.length > 0 then
      goObjPairs ft blockType labels valueMap body
    else
      (body ++ [.block blockType labels
        (valueMap.foldl (fun b p => setAttrB b p.1 p.2) [])], none)
  | _ => (body, some "unexpected value type for block")

/-- The nested-key loop of `convertObjectToBlocksRecursive` (one
recursive call per key, appending the key as a further label; an error
stops the iteration and propagates).  With `labels = []` this is also
the top-level loop of `convertObjectToBlocks`. -/
def goObjPairs (ft blockType : String) (labels : List String) (pairs : JObj)
    (body : HWBody) : HWBody × Option String :=
  match pairs with
  | [] => (body, none)
  | (k, v) :: rest =>
    match convertObjectToBlocksRecursive ft blockType (labels ++ [k]) v body with
    | (body', none) => goObjPairs ft blockType labels rest body'
    | (body', some err) => (body', some err)

end

/-- `convertObjectToBlocks` (`main.go`): one
`convertObjectToBlocksRecursive` call per key of the object, with the
key as the initial label. -/
def convertObjectToBlocks (ft blockType : String) (val : JVal) (body : HWBody) :
    HWBody × Option String :=
  match val with
  | .obj pairs => goObjPairs ft blockType [] pairs body
  | _ => (body, some "not an object")

/-- The per-attribute dispatch of the attributes-only branch of
`convertToNativeHCL` (`main.go`): list values classified by
`isHCLBlockArray` are converted to blocks with a plain-attribute
fallback on error, object values classified by
`shouldConvertObjectToBlocks` likewise, and everything else becomes a
plain attribute. -/
def convertAttrEntry (ft : String) (name : String) (val : JVal) (body : HWBody) : HWBody :=
  match val with
  | .arr elems =>
    if isHCLBlockArray ft name (.arr elems) then
      match convertJSONBlockArray ft name (.arr elems) body with
      | (body', none) => body'
      | (body', some _) => setAttrB body' name (.arr elems)
    else setAttrB body name (.arr elems)
  | .obj fields =>
    if shouldConvertObjectToBlocks ft name (.obj fields) then
      match convertObjectToBlocks ft name (.obj fields) body with
      | (body', none) => body'
      | (body', some _) => setAttrB body' name (.obj fields)
    else setAttrB body name (.obj fields)
  | _ => setAttrB body name val

/-- An `hcl.Body` as consumed by `convertToNativeHCL`.  Each attribute
carries the outcome of `attr.Expr.Value(nil)`: `Except.ok` the evaluated
value, or `Except.error` when evaluation produced error diagnostics (for
a JSON-parsed body this never happens — with a nil context JSON strings
are returned verbatim — but `convertToNativeHCL` is written against the
general `hcl.Body` interface, whose expressions can fail).
`attrsOnly` is a body on which `JustAttributes` succeeds; `withBlocks`
is a body with blocks, for which `JustAttributes` fails and
`PartialContent` returns the attributes and blocks. -/
inductive HclBody where
  | attrsOnly (attrs : List (String × Except Unit JVal))
  | withBlocks (attrs : List (String × Except Unit JVal))
      (blocks : List (String × List String × HclBody))

mutual

/-- `convertToNativeHCL` (`main.go`).  Attributes whose evaluation
failed are skipped (`continue`).  The Go error return is unreachable for
bodies representable here (`PartialContent` with an empty schema reports
no errors), so the result is the output body itself. -/
def convertToNativeHCL (ft : String) : HclBody → HWBody → HWBody
  | .attrsOnly attrs, body => processAttrs ft attrs body
  | .withBlocks attrs blocks, body => processBlocks ft blocks (processPlainAttrs attrs body)

/-- The attribute loop of the attributes-only branch of
`convertToNativeHCL`: skip failed evaluations, dispatch the rest. -/
def processAttrs (ft : String) : List (String × Except Unit JVal) → HWBody → HWBody
  | [], body => body
  | (_, .error _) :: rest, body => processAttrs ft rest body
  | (name, .ok val) :: rest, body => processAttrs ft rest (convertAttrEntry ft name val body)

/-- The attribute loop of the blocks branch of `convertToNativeHCL`:
skip failed evaluations, emit the rest as plain attributes. -/
def processPlainAttrs : List (String × Except Unit JVal) → HWBody → HWBody
  | [], body => body
  | (_, .error _) :: rest, body => processPlainAttrs rest body
  | (name, .ok val) :: rest, body => processPlainAttrs rest (setAttrB body name val)

/-- The block loop of the blocks branch of `convertToNativeHCL`: append
a new block and convert its body recursively. -/
def processBlocks (ft : String) : List (String × List String × HclBody) → HWBody → HWBody
  | [], body => body
  | (btype, labels, bbody) :: rest, body =>
    processBlocks ft rest (body ++ [.block btype labels (convertToNativeHCL ft bbody [])])

end

mutual

/-- Removal of every evaluation-failed attribute from a body, at every
nesting level.  (`convertToNativeHCL` behaves as if these attributes
were absent: see the theorem for C10.) -/
def dropFailedAttrs : HclBody → HclBody
  | .attrsOnly attrs => .attrsOnly (attrs.filter fun p => p.2.isOk)
  | .withBlocks attrs blocks =>
    .withBlocks (attrs.filter fun p => p.2.isOk) (dropFailedBlocks blocks)

/-- `dropFailedAttrs` over a block list. -/
def dropFailedBlocks : List (String × List String × HclBody) →
    List (String × List String × HclBody)
  | [] => []
  | (btype, labels, bbody) :: rest =>
    (btype, labels, dropFailedAttrs bbody) :: dropFailedBlocks rest

end

/-! ## Spec-side definitions used for refinement comparisons -/

/-- The block classifier exactly as the specification words it
(§4.3 decision order), for comparison with `isHCLBlockArray`:
1. not a list → false; 2. empty list → false; 3. key in the well-known
block-type set → true, except the variable-declaration name, which is
block-shaped only under the block-preferring dialect (`"terraform"`);
4. otherwise, a first element that is a single-key object whose value is
a one-element list whose sole element is itself a single-key object →
true; 5. default false. -/
def isBlockShapedSpec (dialect : String) (key : String) (value : JVal) : Bool :=
  match value with
  | .arr [] => false
  | .arr (first :: _) =>
    if key ∈ "variable" :: hclBlockTypes then
      (if key = "variable" then dialect = "terraform" else true)
    else
      match first with
      | .obj fm =>
        match fm with
        | [(_, v)] =>
          match v with
          | .arr [velem] =>
            match velem with
            | .obj vfm => vfm.length = 1
            | _ => false
          | _ => false
        | _ => false
      | _ => false
  | _ => false

/-- Modelled from the spec: the external HCL frontend (§6) parses a bare
dotted reference such as `var.name` into a `ScopeTraversalExpr` whose
traversal has one step per dot-separated component (a `TraverseRoot`
followed by `TraverseAttr` steps) and whose source range covers the
whole reference text. -/
def parseReference (s : String) : Expr :=
  match splitDotted s.data [] with
  | root :: rest => .scopeTraversal root (rest.map Traverser.attr) s
  | [] => .scopeTraversal "" [] s
where
  /-- split a character list at `.` (accumulator holds the current
  component reversed). -/
  splitDotted : List Char → List Char → List String
    | [], acc => [⟨acc.reverse⟩]
    | '.' :: rest, acc => (⟨acc.reverse⟩ : String) :: splitDotted rest []
    | c :: rest, acc => splitDotted rest (c :: acc)

/-! ## Helper predicates used by the theorems -/

/-- Does the body contain an attribute with the given name? -/
def hasAttrNamed (n : String) (body : HWBody) : Bool := body.any (isAttrNamed n)

/-- Is an item a block? -/
def isBlockItem : HWItem → Bool
  | .block _ _ _ => true
  | .attr _ _ => false

/-- What one top-level attribute entry contributes to the output body. -/
def entryOut (ft : String) : String × Except Unit JVal → HWBody
  | (_, .error _) => []
  | (name, .ok val) => convertAttrEntry ft name val []

/-! ## Helper lemmas -/

theorem setAttrIn_mem (body : HWBody) (n : String) (v : HWAttrVal) :
    (setAttrIn body n v).any (isAttrNamed n) = true := by
  induction body with
  | nil => simp [setAttrIn, isAttrNamed]
  | cons item rest ih =>
    cases item with
    | attr n' v' =>
      by_cases h : n' = n
      · simp [setAttrIn, h, isAttrNamed]
      · simp [setAttrIn, h, isAttrNamed, ih]
    | block bt ls b => simp [setAttrIn, isAttrNamed, ih]

theorem setAttrIn_append_of_not_has (body : HWBody) (n : String) (v : HWAttrVal)
    (h : hasAttrNamed n body = false) :
    setAttrIn body n v = body ++ [.attr n v] := by
  induction body with
  | nil => rfl
  | cons item rest ih =>
    cases item with
    | attr n' v' =>
      simp only [hasAttrNamed, List.any_cons, Bool.or_eq_false_iff, isAttrNamed] at h
      have hne : ¬ (n' = n) := by simpa using h.1
      simp [setAttrIn, hne, ih (by simp [hasAttrNamed, h.2])]
    | block bt ls b =>
      simp only [hasAttrNamed, List.any_cons, Bool.or_eq_false_iff, isAttrNamed] at h
      simp [setAttrIn, ih (by simp [hasAttrNamed, h.2])]

theorem hasAttrNamed_append (n : String) (b1 b2 : HWBody) :
    hasAttrNamed n (b1 ++ b2) = (hasAttrNamed n b1 || hasAttrNamed n b2) := by
  simp [hasAttrNamed]

theorem hasAttrNamed_of_all_blocks (n : String) (body : HWBody)
    (h : body.all isBlockItem = true) : hasAttrNamed n body = false := by
  induction body with
  | nil => rfl
  | cons item rest ih =>
    simp only [List.all_cons, Bool.and_eq_true] at h
    cases item with
    | attr n' v' => simp [isBlockItem] at h
    | block bt ls b =>
      simp only [hasAttrNamed, List.any_cons, isAttrNamed, Bool.false_or]
      simp only [hasAttrNamed] at ih
      exact ih (by simpa using h.2)

theorem goInstances_append (ft bt : String) (insts : List JVal) (body : HWBody) :
    goInstances ft bt insts body =
      (body ++ (goInstances ft bt insts []).1, (goInstances ft bt insts []).2) := by
  induction insts generalizing body with
  | nil => simp [goInstances]
  | cons inst rest ih =>
    cases inst with
    | obj m =>
      simp only [goInstances]
      generalize HWItem.block bt (extractBlockLabelsAndContent m).1
          (fillBlockBody ft (extractBlockLabelsAndContent m).2 []) = blk
      simp only [List.nil_append]
      rw [ih (body ++ [blk]), ih [blk]]
      simp
    | null => simp [goInstances]
    | bool b => simp [goInstances]
    | num i => simp [goInstances]
    | str s => simp [goInstances]
    | arr l => simp [goInstances]

theorem goInstances_blocks (ft bt : String) (insts : List JVal) :
    (goInstances ft bt insts []).1.all isBlockItem = true := by
  induction insts with
  | nil => simp [goInstances]
  | cons inst rest ih =>
    cases inst with
    | obj m =>
      rw [goInstances, goInstances_append]
      simp [isBlockItem, ih]

    | null => simp [goInstances]
    | bool b => simp [goInstances]
    | num i => simp [goInstances]
    | str s => simp [goInstances]
    | arr l => simp [goInstances]

mutual

theorem cOTBR_append (ft bt : String) (labels : List String) (val : JVal) (body : HWBody) :
    convertObjectToBlocksRecursive ft bt labels val body =
      (body ++ (convertObjectToBlocksRecursive ft bt labels val []).1,
       (convertObjectToBlocksRecursive ft bt labels val []).2) := by
  cases val with
  | arr elems =>
    match elems with
    | [first] =>
      cases first with
      | obj fm => simp [convertObjectToBlocksRecursive]
      | null => simp [convertObjectToBlocksRecursive]
      | bool b => simp [convertObjectToBlocksRecursive]
      | num i => simp [convertObjectToBlocksRecursive]
      | str s => simp [convertObjectToBlocksRecursive]
      | arr l => simp [convertObjectToBlocksRecursive]
    | [] => simp [convertObjectToBlocksRecursive]
    | a :: b :: rest => simp [convertObjectToBlocksRecursive]
  | obj valueMap =>
    by_cases hc : (valueMap.all fun p => isArrVal p.2) = true ∧ valueMap.length > 0
    · rw [convertObjectToBlocksRecursive]
      simp only [hc, and_self, if_true]
      rw [convertObjectToBlocksRecursive]
      simp only [hc, and_self, if_true]
      exact goObjPairs_append ft bt labels valueMap body
    · rw [convertObjectToBlocksRecursive]
      rw [if_neg hc]
      rw [convertObjectToBlocksRecursive]
      rw [if_neg hc]
      simp
  | null => simp [convertObjectToBlocksRecursive]
  | bool b => simp [convertObjectToBlocksRecursive]
  | num i => simp [convertObjectToBlocksRecursive]
  | str s => simp [convertObjectToBlocksRecursive]
termination_by (sizeOf val, 0)

theorem goObjPairs_append (ft bt : String) (labels : List String) (pairs : JObj)
    (body : HWBody) :
    goObjPairs ft bt labels pairs body =
      (body ++ (goObjPairs ft bt labels pairs []).1,
       (goObjPairs ft bt labels pairs []).2) := by
  match pairs with
  | [] => simp [goObjPairs]
  | (k, v) :: rest =>
    rcases he : convertObjectToBlocksRecursive ft bt (labels ++ [k]) v [] with ⟨y, e⟩
    have hv := cOTBR_append ft bt (labels ++ [k]) v body
    rw [he] at hv
    simp only [goObjPairs]
    rw [hv, he]
    cases e with
    | none =>
      simp only
      rw [goObjPairs_append ft bt labels rest (body ++ y),
        goObjPairs_append ft bt labels rest y]
      simp
    | some err => simp
termination_by (sizeOf pairs, 1)

end

mutual

theorem cOTBR_blocks (ft bt : String) (labels : List String) (val : JVal) :
    (convertObjectToBlocksRecursive ft bt labels val []).1.all isBlockItem = true := by
  cases val with
  | arr elems =>
    match elems with
    | [first] =>
      cases first with
      | obj fm => simp [convertObjectToBlocksRecursive, isBlockItem]
      | null => simp [convertObjectToBlocksRecursive]
      | bool b => simp [convertObjectToBlocksRecursive]
      | num i => simp [convertObjectToBlocksRecursive]
      | str s => simp [convertObjectToBlocksRecursive]
      | arr l => simp [convertObjectToBlocksRecursive]
    | [] => simp [convertObjectToBlocksRecursive]
    | a :: b :: rest => simp [convertObjectToBlocksRecursive]
  | obj valueMap =>
    by_cases hc : (valueMap.all fun p => isArrVal p.2) = true ∧ valueMap.length > 0
    · rw [convertObjectToBlocksRecursive]
      simp only [hc, and_self, if_true]
      exact goObjPairs_blocks ft bt labels valueMap
    · rw [convertObjectToBlocksRecursive]
      rw [if_neg hc]
      simp [isBlockItem]
  | null => simp [convertObjectToBlocksRecursive]
  | bool b => simp [convertObjectToBlocksRecursive]
  | num i => simp [convertObjectToBlocksRecursive]
  | str s => simp [convertObjectToBlocksRecursive]
termination_by (sizeOf val, 0)

theorem goObjPairs_blocks (ft bt : String) (labels : List String) (pairs : JObj) :
    (goObjPairs ft bt labels pairs []).1.all isBlockItem = true := by
  match pairs with
  | [] => simp [goObjPairs]
  | (k, v) :: rest =>
    rcases he : convertObjectToBlocksRecursive ft bt (labels ++ [k]) v [] with ⟨y, e⟩
    have hyb : y.all isBlockItem = true := by
      have := cOTBR_blocks ft bt (labels ++ [k]) v
      rw [he] at this
      exact this
    simp only [goObjPairs, List.nil_append]
    rw [he]
    cases e with
    | none =>
      simp only
      rw [goObjPairs_append ft bt labels rest y]
      have hrest := goObjPairs_blocks ft bt labels rest
      simp_all
    | some err => simpa using hyb
termination_by (sizeOf pairs, 1)

end

theorem convertAttrEntry_append (ft n : String) (v : JVal) (body : HWBody)
    (h : hasAttrNamed n body = false) :
    convertAttrEntry ft n v body = body ++ convertAttrEntry ft n v [] := by
  have hnil : hasAttrNamed n ([] : HWBody) = false := by simp [hasAttrNamed]
  cases v with
  | arr elems =>
    rw [convertAttrEntry, convertAttrEntry]
    by_cases hc : isHCLBlockArray ft n (.arr elems) = true
    · simp only [hc, if_true]
      rw [convertJSONBlockArray, convertJSONBlockArray]
      rcases hg : goInstances ft n elems [] with ⟨x, e⟩
      have hgb : x.all isBlockItem = true := by
        have := goInstances_blocks ft n elems
        rw [hg] at this
        exact this
      rw [goInstances_append, hg]
      cases e with
      | none => simp
      | some err =>
        simp only
        unfold setAttrB
        rw [setAttrIn_append_of_not_has _ _ _ (by
            rw [hasAttrNamed_append]
            simp [h, hasAttrNamed_of_all_blocks n x hgb]),
          setAttrIn_append_of_not_has _ _ _ (hasAttrNamed_of_all_blocks n x hgb)]
        simp
    · simp only [hc, if_false, Bool.false_eq_true]
      unfold setAttrB
      rw [setAttrIn_append_of_not_has _ _ _ h,
        setAttrIn_append_of_not_has _ _ _ hnil]
      simp
  | obj fields =>
    rw [convertAttrEntry, convertAttrEntry]
    by_cases hc : shouldConvertObjectToBlocks ft n (.obj fields) = true
    · simp only [hc, if_true]
      rw [convertObjectToBlocks, convertObjectToBlocks]
      rcases hg : goObjPairs ft n [] fields [] with ⟨x, e⟩
      have hgb : x.all isBlockItem = true := by
        have := goObjPairs_blocks ft n [] fields
        rw [hg] at this
        exact this
      rw [goObjPairs_append, hg]
      cases e with
      | none => simp
      | some err =>
        simp only
        unfold setAttrB
        rw [setAttrIn_append_of_not_has _ _ _ (by
            rw [hasAttrNamed_append]
            simp [h, hasAttrNamed_of_all_blocks n x hgb]),
          setAttrIn_append_of_not_has _ _ _ (hasAttrNamed_of_all_blocks n x hgb)]
        simp
    · simp only [hc, if_false, Bool.false_eq_true]
      unfold setAttrB
      rw [setAttrIn_append_of_not_has _ _ _ h,
        setAttrIn_append_of_not_has _ _ _ hnil]
      simp
  | null =>
    rw [convertAttrEntry, convertAttrEntry]
    · unfold setAttrB
      rw [setAttrIn_append_of_not_has _ _ _ h, setAttrIn_append_of_not_has _ _ _ hnil]
      simp
    all_goals simp
  | bool b =>
    rw [convertAttrEntry, convertAttrEntry]
    · unfold setAttrB
      rw [setAttrIn_append_of_not_has _ _ _ h, setAttrIn_append_of_not_has _ _ _ hnil]
      simp
    all_goals simp
  | num i =>
    rw [convertAttrEntry, convertAttrEntry]
    · unfold setAttrB
      rw [setAttrIn_append_of_not_has _ _ _ h, setAttrIn_append_of_not_has _ _ _ hnil]
      simp
    all_goals simp
  | str s =>
    rw [convertAttrEntry, convertAttrEntry]
    · unfold setAttrB
      rw [setAttrIn_append_of_not_has _ _ _ h, setAttrIn_append_of_not_has _ _ _ hnil]
      simp
    all_goals simp

theorem entryOut_no_other_attr (ft n : String) (v : JVal) (m : String) (hm : ¬ m = n) :
    hasAttrNamed m (convertAttrEntry ft n v []) = false := by
  have hattr : ∀ val : HWAttrVal, hasAttrNamed m [HWItem.attr n val] = false := by
    intro val
    have hnm : ¬ n = m := fun hc => hm hc.symm
    simp [hasAttrNamed, isAttrNamed, hnm]
  cases v with
  | arr elems =>
    rw [convertAttrEntry]
    by_cases hc : isHCLBlockArray ft n (.arr elems) = true
    · simp only [hc, if_true]
      rw [convertJSONBlockArray]
      rcases hg : goInstances ft n elems [] with ⟨x, e⟩
      have hgb : x.all isBlockItem = true := by
        have := goInstances_blocks ft n elems
        rw [hg] at this
        exact this
      cases e with
      | none => exact hasAttrNamed_of_all_blocks m x hgb
      | some err =>
        simp only
        unfold setAttrB
        rw [setAttrIn_append_of_not_has _ _ _ (hasAttrNamed_of_all_blocks n x hgb)]
        rw [hasAttrNamed_append]
        simp [hasAttrNamed_of_all_blocks m x hgb, hattr]
    · simp only [hc, if_false, Bool.false_eq_true]
      unfold setAttrB
      rw [setAttrIn_append_of_not_has _ _ _ (by simp [hasAttrNamed])]
      simpa using hattr _
  | obj fields =>
    rw [convertAttrEntry]
    by_cases hc : shouldConvertObjectToBlocks ft n (.obj fields) = true
    · simp only [hc, if_true]
      rw [convertObjectToBlocks]
      rcases hg : goObjPairs ft n [] fields [] with ⟨x, e⟩
      have hgb : x.all isBlockItem = true := by
        have := goObjPairs_blocks ft n [] fields
        rw [hg] at this
        exact this
      cases e with
      | none => exact hasAttrNamed_of_all_blocks m x hgb
      | some err =>
        simp only
        unfold setAttrB
        rw [setAttrIn_append_of_not_has _ _ _ (hasAttrNamed_of_all_blocks n x hgb)]
        rw [hasAttrNamed_append]
        simp [hasAttrNamed_of_all_blocks m x hgb, hattr]
    · simp only [hc, if_false, Bool.false_eq_true]
      unfold setAttrB
      rw [setAttrIn_append_of_not_has _ _ _ (by simp [hasAttrNamed])]
      simpa using hattr _
  | null =>
    rw [convertAttrEntry]
    · unfold setAttrB
      rw [setAttrIn_append_of_not_has _ _ _ (by simp [hasAttrNamed])]
      simpa using hattr _
    all_goals simp
  | bool b =>
    rw [convertAttrEntry]
    · unfold setAttrB
      rw [setAttrIn_append_of_not_has _ _ _ (by simp [hasAttrNamed])]
      simpa using hattr _
    all_goals simp
  | num i =>
    rw [convertAttrEntry]
    · unfold setAttrB
      rw [setAttrIn_append_of_not_has _ _ _ (by simp [hasAttrNamed])]
      simpa using hattr _
    all_goals simp
  | str s =>
    rw [convertAttrEntry]
    · unfold setAttrB
      rw [setAttrIn_append_of_not_has _ _ _ (by simp [hasAttrNamed])]
      simpa using hattr _
    all_goals simp

theorem processAttrs_flatMap (ft : String) (l : List (String × Except Unit JVal))
    (body : HWBody)
    (hfresh : ∀ p ∈ l, hasAttrNamed p.1 body = false)
    (hnd : (l.map Prod.fst).Nodup) :
    processAttrs ft l body = body ++ l.flatMap (entryOut ft) := by
  induction l generalizing body with
  | nil => simp [processAttrs]
  | cons p rest ih =>
    rcases p with ⟨n, val⟩
    simp only [List.map_cons, List.nodup_cons] at hnd
    cases val with
    | error e =>
      rw [processAttrs]
      rw [ih body (fun q hq => hfresh q (List.mem_cons_of_mem _ hq)) hnd.2]
      simp [entryOut]
    | ok v =>
      rw [processAttrs]
      rw [convertAttrEntry_append ft n v body (hfresh (n, .ok v) (List.mem_cons_self _ _))]
      rw [ih (body ++ convertAttrEntry ft n v []) ?fresh hnd.2]
      · simp [entryOut]
      case fresh =>
        intro q hq
        rw [hasAttrNamed_append]
        have hq1 : hasAttrNamed q.1 body = false := hfresh q (List.mem_cons_of_mem _ hq)
        have hqn : ¬ q.1 = n := by
          intro hcontra
          exact hnd.1 (hcontra ▸ List.mem_map_of_mem Prod.fst hq)
        simp [hq1, entryOut_no_other_attr ft n v q.1 hqn]

theorem c9amended (ft : String) (l₁ l₂ : List (String × Except Unit JVal))
    (hperm : l₁.Perm l₂) (hnd : (l₁.map Prod.fst).Nodup) :
    (processAttrs ft l₁ []).Perm (processAttrs ft l₂ []) := by
  have hnd₂ : (l₂.map Prod.fst).Nodup := ((hperm.map Prod.fst).nodup_iff).mp hnd
  rw [processAttrs_flatMap ft l₁ [] (by simp [hasAttrNamed]) hnd,
    processAttrs_flatMap ft l₂ [] (by simp [hasAttrNamed]) hnd₂]
  simpa using hperm.flatMap_right (entryOut ft)

theorem processAttrs_filter (ft : String) (attrs : List (String × Except Unit JVal))
    (body : HWBody) :
    processAttrs ft attrs body = processAttrs ft (attrs.filter fun p => p.2.isOk) body := by
  induction attrs generalizing body with
  | nil => rfl
  | cons p rest ih =>
    rcases p with ⟨name, val⟩
    cases val with
    | error e => simp [processAttrs, List.filter, Except.isOk, Except.toBool, ih]
    | ok v => simp [processAttrs, List.filter, Except.isOk, Except.toBool, ih]

theorem processPlainAttrs_filter (attrs : List (String × Except Unit JVal)) (body : HWBody) :
    processPlainAttrs attrs body = processPlainAttrs (attrs.filter fun p => p.2.isOk) body := by
  induction attrs generalizing body with
  | nil => rfl
  | cons p rest ih =>
    rcases p with ⟨name, val⟩
    cases val with
    | error e => simp [processPlainAttrs, List.filter, Except.isOk, Except.toBool, ih]
    | ok v => simp [processPlainAttrs, List.filter, Except.isOk, Except.toBool, ih]

mutual

theorem convertToNativeHCL_dropFailed (ft : String) (b : HclBody) (body : HWBody) :
    convertToNativeHCL ft b body = convertToNativeHCL ft (dropFailedAttrs b) body := by
  cases b with
  | attrsOnly attrs =>
    rw [dropFailedAttrs]
    rw [convertToNativeHCL, convertToNativeHCL]
    exact processAttrs_filter ft attrs body
  | withBlocks attrs blocks =>
    rw [dropFailedAttrs]
    rw [convertToNativeHCL, convertToNativeHCL]
    rw [← processPlainAttrs_filter]
    exact processBlocks_dropFailed ft blocks _

theorem processBlocks_dropFailed (ft : String) (blocks : List (String × List String × HclBody))
    (body : HWBody) :
    processBlocks ft blocks body = processBlocks ft (dropFailedBlocks blocks) body := by
  cases blocks with
  | nil => rfl
  | cons blk rest =>
    rcases blk with ⟨btype, labels, bbody⟩
    rw [dropFailedBlocks]
    rw [processBlocks, processBlocks]
    rw [← convertToNativeHCL_dropFailed ft bbody []]
    exact processBlocks_dropFailed ft rest _

end

mutual

theorem serializable_ok (e : Expr) (h : serializableB e = true) :
    ∃ v, ConvertExpression e = .ok v := by
  cases e with
  | literal v => exact ⟨v, by simp [ConvertExpression]⟩
  | scopeTraversal root rest src =>
    by_cases hr : rest.isEmpty <;> simp [ConvertExpression, hr]
  | unaryOp op operand src =>
    cases operand with
    | literal lit =>
      simp only [serializableB] at h
      rcases Option.isSome_iff_exists.mp h with ⟨r, hr⟩
      exact ⟨r, by simp [ConvertExpression, hr]⟩
    | scopeTraversal a b c => exact ⟨.str (wrapSrc src), by simp [ConvertExpression]⟩
    | unaryOp a b c => exact ⟨.str (wrapSrc src), by simp [ConvertExpression]⟩
    | template a => exact ⟨.str (wrapSrc src), by simp [ConvertExpression]⟩
    | templateWrap a => exact ⟨.str (wrapSrc src), by simp [ConvertExpression]⟩
    | tupleCons a b => exact ⟨.str (wrapSrc src), by simp [ConvertExpression]⟩
    | objectCons a b => exact ⟨.str (wrapSrc src), by simp [ConvertExpression]⟩
    | conditional a b c d => exact ⟨.str (wrapSrc src), by simp [ConvertExpression]⟩
    | templateJoin a b c d f => exact ⟨.str (wrapSrc src), by simp [ConvertExpression]⟩
    | objectConsKey a b => exact ⟨.str (wrapSrc src), by simp [ConvertExpression]⟩
    | other a => exact ⟨.str (wrapSrc src), by simp [ConvertExpression]⟩
  | template parts =>
    simp only [serializableB] at h
    rcases templateOk_ok parts h with ⟨s, hs⟩
    exact ⟨.str s, by simp [ConvertExpression, hs]⟩
  | templateWrap w =>
    simp only [serializableB] at h
    rcases serializable_ok w h with ⟨v, hv⟩
    exact ⟨v, by simp [ConvertExpression, hv]⟩
  | tupleCons exprs src =>
    simp only [serializableB] at h
    rcases exprListOk_ok exprs h with ⟨vs, hvs⟩
    exact ⟨.arr vs, by simp [ConvertExpression, hvs]⟩
  | objectCons items src =>
    simp only [serializableB] at h
    rcases objItemsOk_ok items [] h with ⟨o, ho⟩
    exact ⟨.obj o, by simp [ConvertExpression, ho]⟩
  | conditional a b c src => exact ⟨.str (wrapSrc src), by simp [ConvertExpression]⟩
  | templateJoin a b c d src => exact ⟨.str (wrapSrc src), by simp [ConvertExpression]⟩
  | objectConsKey a src => exact ⟨.str (wrapSrc src), by simp [ConvertExpression]⟩
  | other src => exact ⟨.str (wrapSrc src), by simp [ConvertExpression]⟩
termination_by (sizeOf e, 0)
decreasing_by
all_goals subst_vars
all_goals first
  | (apply Prod.Lex.right; omega)
  | (apply Prod.Lex.left; simp_arith)
  | (apply Prod.Lex.left; simp_arith; omega)

theorem exprListOk_ok (l : List Expr) (h : exprListOkB l = true) :
    ∃ vs, convertExprList l = .ok vs := by
  cases l with
  | nil => exact ⟨[], by simp [convertExprList]⟩
  | cons e rest =>
    simp only [exprListOkB, Bool.and_eq_true] at h
    rcases serializable_ok e h.1 with ⟨v, hv⟩
    rcases exprListOk_ok rest h.2 with ⟨vs, hvs⟩
    exact ⟨v :: vs, by simp [convertExprList, hv, hvs]⟩
termination_by (sizeOf l, 0)
decreasing_by
all_goals subst_vars
all_goals first
  | (apply Prod.Lex.right; omega)
  | (apply Prod.Lex.left; simp_arith)
  | (apply Prod.Lex.left; simp_arith; omega)

theorem objItemsOk_ok (l : List (Expr × Expr)) (acc : JObj) (h : objItemsOkB l = true) :
    ∃ o, convertObjItems l acc = .ok o := by
  match l, h with
  | [], h => exact ⟨acc, by simp [convertObjItems]⟩
  | (k, v) :: rest, h =>
    simp only [objItemsOkB, Bool.and_eq_true] at h
    rcases keyOk_ok k h.1.1 with ⟨key, hk⟩
    rcases serializable_ok v h.1.2 with ⟨value, hv⟩
    rcases objItemsOk_ok rest (jsonSet acc key value) h.2 with ⟨o, ho⟩
    exact ⟨o, by simp [convertObjItems, hk, hv, ho]⟩
termination_by (sizeOf l, 0)
decreasing_by
all_goals subst_vars
all_goals first
  | (apply Prod.Lex.right; omega)
  | (apply Prod.Lex.left; simp_arith)
  | (apply Prod.Lex.left; simp_arith; omega)

theorem templateOk_ok (parts : List Expr) (h : templateOkB parts = true) :
    ∃ s, convertTemplate parts = .ok s := by
  cases parts with
  | nil =>
    exact ⟨"", by simp [convertTemplate, convertParts]⟩
  | cons p rest =>
    cases rest with
    | cons q rest2 =>
      simp only [templateOkB] at h
      rcases partsOk_ok (p :: q :: rest2) h with ⟨s, hs⟩
      exact ⟨s, by simp [convertTemplate, hs]⟩
    | nil =>
      cases p with
      | literal v =>
        simp only [templateOkB] at h
        rcases Option.isSome_iff_exists.mp h with ⟨s, hs⟩
        exact ⟨escapeLiteral s, by simp [convertTemplate, hs]⟩
      | scopeTraversal a b c =>
        simp only [templateOkB] at h
        rcases partsOk_ok _ h with ⟨s, hs⟩
        exact ⟨s, by simp [convertTemplate, hs]⟩
      | unaryOp a b c =>
        simp only [templateOkB] at h
        rcases partsOk_ok _ h with ⟨s, hs⟩
        exact ⟨s, by simp [convertTemplate, hs]⟩
      | template a =>
        simp only [templateOkB] at h
        rcases partsOk_ok _ h with ⟨s, hs⟩
        exact ⟨s, by simp [convertTemplate, hs]⟩
      | templateWrap a =>
        simp only [templateOkB] at h
        rcases partsOk_ok _ h with ⟨s, hs⟩
        exact ⟨s, by simp [convertTemplate, hs]⟩
      | tupleCons a b =>
        simp only [templateOkB] at h
        rcases partsOk_ok _ h with ⟨s, hs⟩
        exact ⟨s, by simp [convertTemplate, hs]⟩
      | objectCons a b =>
        simp only [templateOkB] at h
        rcases partsOk_ok _ h with ⟨s, hs⟩
        exact ⟨s, by simp [convertTemplate, hs]⟩
      | conditional a b c d =>
        simp only [templateOkB] at h
        rcases partsOk_ok _ h with ⟨s, hs⟩
        exact ⟨s, by simp [convertTemplate, hs]⟩
      | templateJoin a b c d f =>
        simp only [templateOkB] at h
        rcases partsOk_ok _ h with ⟨s, hs⟩
        exact ⟨s, by simp [convertTemplate, hs]⟩
      | objectConsKey a b =>
        simp only [templateOkB] at h
        rcases partsOk_ok _ h with ⟨s, hs⟩
        exact ⟨s, by simp [convertTemplate, hs]⟩
      | other a =>
        simp only [templateOkB] at h
        rcases partsOk_ok _ h with ⟨s, hs⟩
        exact ⟨s, by simp [convertTemplate, hs]⟩
termination_by (sizeOf parts, 1)
decreasing_by
all_goals subst_vars
all_goals first
  | (apply Prod.Lex.right; omega)
  | (apply Prod.Lex.left; simp_arith)
  | (apply Prod.Lex.left; simp_arith; omega)

theorem partsOk_ok (parts : List Expr) (h : partsOkB parts = true) :
    ∃ s, convertParts parts = .ok s := by
  cases parts with
  | nil => exact ⟨"", by simp [convertParts]⟩
  | cons p rest =>
    simp only [partsOkB, Bool.and_eq_true] at h
    rcases stringPartOk_ok p h.1 with ⟨s, hs⟩
    rcases partsOk_ok rest h.2 with ⟨srest, hsrest⟩
    exact ⟨s ++ srest, by simp [convertParts, hs, hsrest]⟩
termination_by (sizeOf parts, 0)
decreasing_by
all_goals subst_vars
all_goals first
  | (apply Prod.Lex.right; omega)
  | (apply Prod.Lex.left; simp_arith)
  | (apply Prod.Lex.left; simp_arith; omega)

theorem stringPartOk_ok (e : Expr) (h : stringPartOkB e = true) :
    ∃ s, convertStringPart e = .ok s := by
  cases e with
  | literal v =>
    cases v with
    | null => exact ⟨"null", by simp [convertStringPart]⟩
    | bool b =>
      simp only [convertStringPart, ctyToString]
      exact ⟨_, rfl⟩
    | num n =>
      simp only [convertStringPart, ctyToString]
      exact ⟨_, rfl⟩
    | str s =>
      simp only [convertStringPart, ctyToString]
      exact ⟨_, rfl⟩
    | arr l => simp [stringPartOkB, ctyToString] at h
    | obj o => simp [stringPartOkB, ctyToString] at h
  | template parts =>
    simp only [stringPartOkB] at h
    rcases templateOk_ok parts h with ⟨s, hs⟩
    exact ⟨s, by simp [convertStringPart, hs]⟩
  | templateWrap w =>
    simp only [stringPartOkB] at h
    rcases stringPartOk_ok w h with ⟨s, hs⟩
    exact ⟨s, by simp [convertStringPart, hs]⟩
  | conditional condSrc t f src =>
    rcases hc : convertStringPart t with err | s
    · simp only [convertStringPart, convertTemplateConditional, hc]
      exact ⟨"", rfl⟩
    · simp only [convertStringPart, convertTemplateConditional, hc]
      exact ⟨_, rfl⟩
  | templateJoin kv vv coll ve src =>
    simp only [stringPartOkB] at h
    rcases stringPartOk_ok ve h with ⟨s, hs⟩
    simp only [convertStringPart, convertTemplateFor, hs]
    exact ⟨_, rfl⟩
  | scopeTraversal a b c => exact ⟨wrapSrc c, by simp [convertStringPart]⟩
  | unaryOp a b c => exact ⟨wrapSrc c, by simp [convertStringPart]⟩
  | tupleCons a b => exact ⟨wrapSrc b, by simp [convertStringPart]⟩
  | objectCons a b => exact ⟨wrapSrc b, by simp [convertStringPart]⟩
  | objectConsKey a b => exact ⟨wrapSrc b, by simp [convertStringPart]⟩
  | other a => exact ⟨wrapSrc a, by simp [convertStringPart]⟩
termination_by (sizeOf e, 0)
decreasing_by
all_goals subst_vars
all_goals first
  | (apply Prod.Lex.right; omega)
  | (apply Prod.Lex.left; simp_arith)
  | (apply Prod.Lex.left; simp_arith; omega)

theorem keyOk_ok (e : Expr) (h : keyOkB e = true) :
    ∃ s, convertKey e = .ok s := by
  cases e with
  | objectConsKey w src =>
    cases w with
    | scopeTraversal a b c => exact ⟨c, by simp [convertKey]⟩
    | literal v =>
      simp only [keyOkB] at h
      rcases stringPartOk_ok _ h with ⟨s, hs⟩
      exact ⟨s, by simp [convertKey, hs]⟩
    | unaryOp a b c =>
      simp only [keyOkB] at h
      rcases stringPartOk_ok _ h with ⟨s, hs⟩
      exact ⟨s, by simp [convertKey, hs]⟩
    | template a =>
      simp only [keyOkB] at h
      rcases stringPartOk_ok _ h with ⟨s, hs⟩
      exact ⟨s, by simp [convertKey, hs]⟩
    | templateWrap a =>
      simp only [keyOkB] at h
      rcases stringPartOk_ok _ h with ⟨s, hs⟩
      exact ⟨s, by simp [convertKey, hs]⟩
    | tupleCons a b =>
      simp only [keyOkB] at h
      rcases stringPartOk_ok _ h with ⟨s, hs⟩
      exact ⟨s, by simp [convertKey, hs]⟩
    | objectCons a b =>
      simp only [keyOkB] at h
      rcases stringPartOk_ok _ h with ⟨s, hs⟩
      exact ⟨s, by simp [convertKey, hs]⟩
    | conditional a b c d =>
      simp only [keyOkB] at h
      rcases stringPartOk_ok _ h with ⟨s, hs⟩
      exact ⟨s, by simp [convertKey, hs]⟩
    | templateJoin a b c d f =>
      simp only [keyOkB] at h
      rcases stringPartOk_ok _ h with ⟨s, hs⟩
      exact ⟨s, by simp [convertKey, hs]⟩
    | objectConsKey a b =>
      simp only [keyOkB] at h
      rcases stringPartOk_ok _ h with ⟨s, hs⟩
      exact ⟨s, by simp [convertKey, hs]⟩
    | other a =>
      simp only [keyOkB] at h
      rcases stringPartOk_ok _ h with ⟨s, hs⟩
      exact ⟨s, by simp [convertKey, hs]⟩
  | literal v =>
    simp only [keyOkB] at h
    rcases stringPartOk_ok _ h with ⟨s, hs⟩
    exact ⟨s, by simp [convertKey, hs]⟩
  | scopeTraversal a b c =>
    simp only [keyOkB] at h
    rcases stringPartOk_ok _ h with ⟨s, hs⟩
    exact ⟨s, by simp [convertKey, hs]⟩
  | unaryOp a b c =>
    simp only [keyOkB] at h
    rcases stringPartOk_ok _ h with ⟨s, hs⟩
    exact ⟨s, by simp [convertKey, hs]⟩
  | template a =>
    simp only [keyOkB] at h
    rcases stringPartOk_ok _ h with ⟨s, hs⟩
    exact ⟨s, by simp [convertKey, hs]⟩
  | templateWrap a =>
    simp only [keyOkB] at h
    rcases stringPartOk_ok _ h with ⟨s, hs⟩
    exact ⟨s, by simp [convertKey, hs]⟩
  | tupleCons a b =>
    simp only [keyOkB] at h
    rcases stringPartOk_ok _ h with ⟨s, hs⟩
    exact ⟨s, by simp [convertKey, hs]⟩
  | objectCons a b =>
    simp only [keyOkB] at h
    rcases stringPartOk_ok _ h with ⟨s, hs⟩
    exact ⟨s, by simp [convertKey, hs]⟩
  | conditional a b c d =>
    simp only [keyOkB] at h
    rcases stringPartOk_ok _ h with ⟨s, hs⟩
    exact ⟨s, by simp [convertKey, hs]⟩
  | templateJoin a b c d f =>
    simp only [keyOkB] at h
    rcases stringPartOk_ok _ h with ⟨s, hs⟩
    exact ⟨s, by simp [convertKey, hs]⟩
  | other a =>
    simp only [keyOkB] at h
    rcases stringPartOk_ok _ h with ⟨s, hs⟩
    exact ⟨s, by simp [convertKey, hs]⟩
termination_by (sizeOf e, 1)
decreasing_by
all_goals subst_vars
all_goals first
  | (apply Prod.Lex.right; omega)
  | (apply Prod.Lex.left; simp_arith)
  | (apply Prod.Lex.left; simp_arith; omega)

end

/-! ## The claims -/

/-- C1 (counterexample): the expression serializer is *not* total.  A
unary operator applied to a literal operand is evaluated immediately
(`convertUnary` calls `Value(nil)` when the operand is a
`LiteralValueExpr`), and a type-incompatible operand — here `!3`, logical
not of a number, which `cty` cannot convert to bool — produces an error
instead of degrading to the opaque wrapped string, contradicting the
claim as stated. -/
theorem expressionSerializer_error_counterexample :
    ConvertExpression (.unaryOp .logicalNot (.literal (.num 3)) "!3") =
      .error "unary operation on incompatible literal operand" := by
  simp [ConvertExpression, unaryEval]

/-- C1 (amended): the expression serializer returns a generic value
without error for every expression in which each unary operator applied
to a literal operand evaluates and each literal stringified inside a
template converts to a string (`serializableB`); in particular every
node kind outside the enumerated set (the `other` constructor), complex
traversals, non-literal unary operands and conditional/for expressions
outside templates all degrade to the opaque wrapped string. -/
theorem expressionSerializer_total_except_literal_eval (e : Expr)
    (h : serializableB e = true) : ∃ v, ConvertExpression e = .ok v :=
  serializable_ok e h

/-- Witness for C1's amended theorem: an un-enumerated node kind is
serializable and serializes to its wrapped source text. -/
theorem expressionSerializer_total_witness :
    serializableB (.other "foo(1)") = true ∧
      ∃ v, ConvertExpression (.other "foo(1)") = .ok v :=
  ⟨by simp [serializableB],
   expressionSerializer_total_except_literal_eval _ (by simp [serializableB])⟩

/-- C2: the block-array classifier `isHCLBlockArray` agrees with the
decision order stated by the spec (`isBlockShapedSpec`: non-list false;
empty false; well-known block-type set true with the variable name
dialect-dependent; otherwise the doubly-nested single-key signature;
default false) on every dialect, key and value; and a flat list of
plain multi-key records, like `subnets`, is not block-shaped. -/
theorem blockArrayClassifier_decision_order :
    (∀ ft name v, isHCLBlockArray ft name v = isBlockShapedSpec ft name v) ∧
    isHCLBlockArray "terraform" "subnets"
      (.arr [.obj [("name", .str "a"), ("cidr", .str "10.0.0.0/24")],
             .obj [("name", .str "b"), ("cidr", .str "10.0.1.0/24")]]) = false := by
  constructor
  · intro ft name v
    cases v with
    | arr elems =>
      cases elems with
      | nil => simp [isHCLBlockArray, isBlockShapedSpec]
      | cons first rest =>
        by_cases hv : name = "variable"
        · simp [isHCLBlockArray, isBlockShapedSpec, hv, hclBlockTypes]
        · by_cases hb : name ∈ hclBlockTypes
          · simp [isHCLBlockArray, isBlockShapedSpec, hv, hb]
          · simp [isHCLBlockArray, isBlockShapedSpec, hv, hb]
    | null => simp [isHCLBlockArray, isBlockShapedSpec]
    | bool b => simp [isHCLBlockArray, isBlockShapedSpec]
    | num n => simp [isHCLBlockArray, isBlockShapedSpec]
    | str s => simp [isHCLBlockArray, isBlockShapedSpec]
    | obj o => simp [isHCLBlockArray, isBlockShapedSpec]
  · simp [isHCLBlockArray, hclBlockTypes]

/-- C3 (counterexample): the same-key collision is *not* the only hard
error in the reverse direction.  A body with no blocks at all — so no
block-key collision can occur — still fails to serialize when an
attribute expression fails (unary evaluation on a type-incompatible
literal operand, the HCL attribute `a = !3`). -/
theorem reverse_error_without_collision :
    ConvertBody (.mk [("a", .unaryOp .logicalNot (.literal (.num 3)) "!3")] []) =
      .error "unary operation on incompatible literal operand" := by
  simp [ConvertBody, convertBlocks, convertAttrs, ConvertExpression, unaryEval]

/-- C3 (amended): when a block's resolved key already exists at a
nesting level, an existing list value has the new block body appended to
it and an existing non-list value makes serialization fail with the
structural-conflict error; besides this (and its label-walk variant),
the reverse direction can also fail when an attribute expression fails
to serialize. -/
theorem blockKey_append_or_conflict (btype : String) (body : SynBody) (out : JObj)
    (v : JObj) (hv : ConvertBody body = .ok v) :
    (∀ cur, jsonGet out btype = some (.arr cur) →
      convertBlock (.mk btype [] body) out =
        .ok (jsonSet out btype (.arr (cur ++ [.obj v])))) ∧
    (∀ x, jsonGet out btype = some x → isArrVal x = false →
      convertBlock (.mk btype [] body) out =
        .error ("invalid HCL detected for " ++ btype ++
          " block, cannot have blocks with and without labels")) := by
  constructor
  · intro cur hcur
    simp [convertBlock, blockWalk, hv, hcur]
  · intro x hx harr
    cases x with
    | arr l => simp [isArrVal] at harr
    | null => simp [convertBlock, blockWalk, hv, hx]
    | bool b => simp [convertBlock, blockWalk, hv, hx]
    | num n => simp [convertBlock, blockWalk, hv, hx]
    | str s => simp [convertBlock, blockWalk, hv, hx]
    | obj o => simp [convertBlock, blockWalk, hv, hx]

/-- Witness for C3's amended theorem: appending a second `locals` block
body to an existing one-element list. -/
theorem blockKey_append_witness :
    convertBlock (.mk "locals" [] (.mk [] [])) [("locals", JVal.arr [JVal.obj []])] =
      .ok [("locals", JVal.arr [JVal.obj [], JVal.obj []])] := by
  have h := (blockKey_append_or_conflict "locals" (.mk [] [])
      [("locals", JVal.arr [JVal.obj []])] []
      (by simp [ConvertBody, convertBlocks, convertAttrs])).1
    [JVal.obj []] (by simp [jsonGet])
  simpa [jsonSet] using h

/-- C4 (counterexample): when block conversion fails *after* some block
instances were already appended, the key's whole value is emitted as a
plain attribute, but the partially-appended blocks remain in the output
— the fallback attribute is not emitted "instead" of all block output.
Here the known block type `resource` has a first instance that converts
to a block and a second instance that is not an object. -/
theorem blockArray_fallback_not_single_attribute :
    convertAttrEntry "terraform" "resource" (.arr [.obj [("x", .num 1)], .num 42]) [] =
      [.block "resource" [] [.attr "x" (.value (.num 1))],
       .attr "resource" (.value (.arr [.obj [("x", .num 1)], .num 42]))] ∧
    convertAttrEntry "terraform" "resource" (.arr [.obj [("x", .num 1)], .num 42]) [] ≠
      [.attr "resource" (setAttrVal "resource" (.arr [.obj [("x", .num 1)], .num 42]))] := by
  constructor
  · simp [convertAttrEntry, isHCLBlockArray, hclBlockTypes, convertJSONBlockArray, goInstances,
      extractBlockLabelsAndContent, fillBlockBody, setAttrB, setAttrVal, setAttrIn]
  · intro h
    have hlen := congrArg List.length h
    simp [convertAttrEntry, isHCLBlockArray, hclBlockTypes, convertJSONBlockArray, goInstances,
      extractBlockLabelsAndContent, fillBlockBody, setAttrB, setAttrVal, setAttrIn] at hlen

/-- C4 (amended): whenever a list value classified block-shaped fails
block conversion, the synthesizer emits the key's whole value as a plain
attribute appended after whatever blocks were appended before the
failure, never raises (the dispatch is a total function), and the key is
present as an attribute in the resulting document. -/
theorem blockArray_fallback_emits_attribute (ft name : String) (elems : List JVal)
    (body : HWBody)
    (hclass : isHCLBlockArray ft name (.arr elems) = true)
    (hfail : (convertJSONBlockArray ft name (.arr elems) body).2.isSome = true) :
    convertAttrEntry ft name (.arr elems) body =
      setAttrB (convertJSONBlockArray ft name (.arr elems) body).1 name (.arr elems) ∧
    (convertAttrEntry ft name (.arr elems) body).any (isAttrNamed name) = true := by
  have h1 : convertAttrEntry ft name (.arr elems) body =
      setAttrB (convertJSONBlockArray ft name (.arr elems) body).1 name (.arr elems) := by
    rw [convertAttrEntry]
    rw [hclass]
    simp only [if_true]
    rcases hc : convertJSONBlockArray ft name (.arr elems) body with ⟨body', err⟩
    cases err with
    | none => rw [hc] at hfail; simp at hfail
    | some e => simp
  exact ⟨h1, by rw [h1]; exact setAttrIn_mem _ _ _⟩

/-- Witness for C4's amended theorem: a `resource` array whose only
instance is not an object. -/
theorem blockArray_fallback_witness :
    convertAttrEntry "terraform" "resource" (.arr [.num 7]) [] =
      setAttrB (convertJSONBlockArray "terraform" "resource" (.arr [.num 7]) []).1
        "resource" (.arr [.num 7]) ∧
    (convertAttrEntry "terraform" "resource" (.arr [.num 7]) []).any
      (isAttrNamed "resource") = true :=
  blockArray_fallback_emits_attribute "terraform" "resource" [.num 7] []
    (by simp [isHCLBlockArray, hclBlockTypes])
    (by simp [convertJSONBlockArray, goInstances])

/-- C5 (counterexample): the three string-sensitive rules are *not*
applied at string leaves inside composite values.  A list containing the
type keyword under the attribute name `type` — for which the claim
predicts unquoted-identifier treatment of the leaf — is emitted through
plain `SetAttributeValue` (the `value` form, whose standard rendering
quotes and escapes every string leaf), negating the claim at this
input. -/
theorem attributeEmitter_composite_counterexample :
    setAttrVal "type" (.arr [.str "string"]) = .value (.arr [.str "string"]) := by
  simp [setAttrVal]

/-- C5 (amended): the three string-sensitive rules (type-keyword
unquoting, simple-reference unwrapping, verbatim interpolation
insertion) apply only when the attribute value is itself a string; every
non-string value — lists and objects included — is emitted via the
standard value conversion with no per-leaf treatment. -/
theorem attributeEmitter_rules_top_level_only (name : String) (v : JVal)
    (h : ∀ s, v ≠ .str s) : setAttrVal name v = .value v := by
  cases v with
  | str s => exact absurd rfl (h s)
  | null => simp [setAttrVal]
  | bool b => simp [setAttrVal]
  | num n => simp [setAttrVal]
  | arr l => simp [setAttrVal]
  | obj o => simp [setAttrVal]

/-- Witness for C5's amended theorem: a list value is emitted as a plain
value. -/
theorem attributeEmitter_nonstring_witness :
    setAttrVal "x" (.arr [.str "$\x7bvar.x\x7d"]) = .value (.arr [.str "$\x7bvar.x\x7d"]) :=
  attributeEmitter_rules_top_level_only "x" _ (by intro s; simp)

/-- C6: round-trip identity for simple references.  Emitting the JSON
string value made of a dollar sign and braces around `var.name` produces
the bare unquoted identifier expression `var.name`
(`SetAttributeRaw` with a single ident token); parsing that bare
reference (external frontend, `parseReference`) gives a two-segment
traversal, which the reverse-direction serializer wraps back to exactly
the original string. -/
theorem simpleReference_roundtrip :
    setAttrVal "instance_type" (.str "$\x7bvar.name\x7d") = .rawIdent "var.name" ∧
    parseReference "var.name" = .scopeTraversal "var" [.attr "name"] "var.name" ∧
    ConvertExpression (.scopeTraversal "var" [.attr "name"] "var.name") =
      .ok (.str "$\x7bvar.name\x7d") := by
  refine ⟨?_, ?_, ?_⟩
  · rfl
  · rfl
  · simp [ConvertExpression, wrapSrc]

/-- C7: a generic object value is classified block-shaped exactly when
the dialect is block-preferring (`targetFileType = "terraform"`) and the
key is in the object block-type set; in every other case — and for every
non-object value — the classifier answers false, with no
structural-signature fallback, and the attribute dispatch then emits the
object as a plain attribute. -/
theorem objectClassifier_dialect_and_set (ft name : String) (v : JVal) :
    (shouldConvertObjectToBlocks ft name v = true ↔
      (ft = "terraform" ∧ name ∈ objectBlockTypes ∧ ∃ fields, v = .obj fields)) ∧
    (shouldConvertObjectToBlocks ft name v = false →
      ∀ fields body, v = .obj fields →
        convertAttrEntry ft name v body = setAttrB body name v) := by
  constructor
  · cases v with
    | obj o =>
      by_cases hft : ft = "terraform" <;>
        simp [shouldConvertObjectToBlocks, hft]
    | null => simp [shouldConvertObjectToBlocks]
    | bool b => simp [shouldConvertObjectToBlocks]
    | num n => simp [shouldConvertObjectToBlocks]
    | str s => simp [shouldConvertObjectToBlocks]
    | arr l => simp [shouldConvertObjectToBlocks]
  · intro hfalse fields body hv
    subst hv
    rw [convertAttrEntry, hfalse]
    simp

/-- Witness for C7: under the nest-preferring dialect the variable
object is a plain attribute. -/
theorem objectClassifier_witness :
    convertAttrEntry "tfvars" "variable" (.obj [("region", .num 1)]) [] =
      setAttrB [] "variable" (.obj [("region", .num 1)]) :=
  (objectClassifier_dialect_and_set "tfvars" "variable" (.obj [("region", .num 1)])).2
    (by simp [shouldConvertObjectToBlocks]) [("region", .num 1)] [] rfl

/-- C8: end-to-end scenario A.  The document with the single key
`variable` mapping to an object that maps `region` to a one-element list
of the object with `type` equal to the string `string`, under the
block-preferring dialect, converts to exactly one block of type
`variable` with single label `region` whose body sets `type` to the
*unquoted identifier* `string` (`rawIdent`, not a quoted literal). -/
theorem scenarioA_variable_block :
    convertToNativeHCL "terraform"
      (.attrsOnly [("variable",
        .ok (.obj [("region", .arr [.obj [("type", .str "string")]])]))]) [] =
    [.block "variable" ["region"] [.attr "type" (.rawIdent "string")]] := by
  simp [convertToNativeHCL, processAttrs, convertAttrEntry, shouldConvertObjectToBlocks,
    objectBlockTypes, convertObjectToBlocks, goObjPairs, convertObjectToBlocksRecursive,
    objBlockBodyFill, setAttrB, setAttrVal, setAttrIn, isUnquotedType, isArrVal]

/-- C9 (counterexample): conversion output is *not* a function of the
input document alone — the emission order of top-level attributes
follows Go's unspecified map-iteration order.  Two iteration orders of
the same two-attribute document (a permutation of the same entries)
produce different output documents. -/
theorem conversion_depends_on_iteration_order :
    ([(("a" : String), (Except.ok (JVal.num 1) : Except Unit JVal)), ("b", .ok (.num 2))]).Perm
      [("b", .ok (.num 2)), ("a", .ok (.num 1))] ∧
    processAttrs "terraform" [("a", .ok (.num 1)), ("b", .ok (.num 2))] [] ≠
      processAttrs "terraform" [("b", .ok (.num 2)), ("a", .ok (.num 1))] [] := by
  constructor
  · exact List.Perm.swap _ _ _
  · intro h
    have h1 : processAttrs "terraform" [("a", .ok (.num 1)), ("b", .ok (.num 2))] [] =
        [.attr "a" (.value (.num 1)), .attr "b" (.value (.num 2))] := by
      simp [processAttrs, convertAttrEntry, setAttrB, setAttrVal, setAttrIn]
    have h2 : processAttrs "terraform" [("b", .ok (.num 2)), ("a", .ok (.num 1))] [] =
        [.attr "b" (.value (.num 2)), .attr "a" (.value (.num 1))] := by
      simp [processAttrs, convertAttrEntry, setAttrB, setAttrVal, setAttrIn]
    rw [h1, h2] at h
    have := congrArg (fun l => l.map (fun i => match i with
      | HWItem.attr n _ => n
      | HWItem.block n _ _ => n)) h
    simp at this

/-- C9 (amended): for a fixed dialect, the conversion is deterministic
up to the order induced by map iteration: any two iteration orders of
the same attribute entries (with distinct names, as JSON objects have)
produce output bodies that are permutations of each other — the same
attributes and blocks, possibly reordered. -/
theorem conversion_order_insensitive_up_to_permutation (ft : String)
    (l₁ l₂ : List (String × Except Unit JVal))
    (hperm : l₁.Perm l₂) (hnd : (l₁.map Prod.fst).Nodup) :
    (processAttrs ft l₁ []).Perm (processAttrs ft l₂ []) := by
  have hnd₂ : (l₂.map Prod.fst).Nodup := ((hperm.map Prod.fst).nodup_iff).mp hnd
  rw [processAttrs_flatMap ft l₁ [] (by simp [hasAttrNamed]) hnd,
    processAttrs_flatMap ft l₂ [] (by simp [hasAttrNamed]) hnd₂]
  simpa using hperm.flatMap_right (entryOut ft)

/-- Witness for C9's amended theorem: the two orders of a two-attribute
document give permuted outputs. -/
theorem conversion_permutation_witness :
    (processAttrs "tfvars" [("x", .ok (.num 1)), ("y", .ok (.num 2))] []).Perm
      (processAttrs "tfvars" [("y", .ok (.num 2)), ("x", .ok (.num 1))] []) :=
  conversion_order_insensitive_up_to_permutation "tfvars" _ _
    (List.Perm.swap _ _ _) (by simp)

/-- C10: every attribute (top-level, or inside a block body for bodies
carrying blocks) whose expression fails to evaluate is silently omitted:
the conversion of any body equals the conversion of the body with all
failed attributes removed at every nesting level, and it always succeeds
(`convertToNativeHCL` is a total function into the output body type,
with no error result and no fallback emission for failed attributes). -/
theorem failed_attribute_evaluation_skipped (ft : String) (b : HclBody) (body : HWBody) :
    convertToNativeHCL ft b body = convertToNativeHCL ft (dropFailedAttrs b) body :=
  convertToNativeHCL_dropFailed ft b body
